import Mathlib

/-!
Verification of the Cloud Spanner benchmark harness
(`boilerplates/gcp/projects/spanner_benchmark.py`).

Shallow embedding conventions:
* Python floats (latencies, timestamps, ratios) are modelled as `ℚ`; the
  spec's percentile/throughput arithmetic is exact rational arithmetic.
* The effectful worker loop is modelled as a pure recursion over a finite
  trace of per-iteration environment records (`IterEnv`): the wall-clock
  reading taken at the loop head, the uniform RNG draw, and whether and how
  fast the store call at that iteration would succeed.  The store itself is
  abstracted to the list of issued calls, as the spec treats it as an
  opaque collaborator.
* The `RuntimeError` raised for a read/mixed workload with no prepared keys
  is modelled as `none`; a normal return is `some (stats, issued-calls)`.
* Random `uuid.uuid4()` key generation is modelled by an abstract generator
  `keyGen : ℕ → String`; distinctness of generated keys corresponds to
  injectivity of the generator.
-/

/-- Per-worker accumulator, mirroring the Python class `WorkerStats`:
two latency lists (in seconds) and the read / write / error counters,
all starting empty / zero. -/
structure WorkerStats where
  read_latencies : List ℚ
  write_latencies : List ℚ
  read_ops : ℕ
  write_ops : ℕ
  errors : ℕ
  deriving DecidableEq

/-- The state `WorkerStats.__init__` produces: empty lists, zero counters. -/
def WorkerStats.empty : WorkerStats :=
  { read_latencies := [], write_latencies := [], read_ops := 0, write_ops := 0, errors := 0 }

/-- Python `int(q)` on a float: truncation toward zero. -/
def pyInt (q : ℚ) : ℤ :=
  if 0 ≤ q then ⌊q⌋ else ⌈q⌉

/-- The `percentile(values, p)` function of the benchmark: empty input gives
`0.0`; otherwise sort ascending, set `k = (len-1) * (p/100)`, `f = floor k`,
`c = ceil k`; if `f == c` return `sorted_vals[int(k)]`, else return
`sorted_vals[f]*(c-k) + sorted_vals[c]*(k-f)`.  Python's stable `sorted` is
modelled by insertion sort (on a linear order the sorted permutation is
unique) and list indexing by `getD` (all indices are in range for
`p ∈ [0,100]`). -/
def percentile (values : List ℚ) (p : ℚ) : ℚ :=
  if values = [] then 0
  else
    let sorted_vals := values.insertionSort (fun a b => a ≤ b)
    let k : ℚ := ((sorted_vals.length : ℚ) - 1) * (p / 100)
    let f : ℤ := ⌊k⌋
    let c : ℤ := ⌈k⌉
    if f = c then sorted_vals.getD (pyInt k).toNat 0
    else
      sorted_vals.getD f.toNat 0 * ((c : ℚ) - k) + sorted_vals.getD c.toNat 0 * (k - (f : ℚ))

/-- Modelled from the spec: the percentile definition as the spec words it
(section 4.5 / claim C1): sort ascending; `k = (len-1) * p/100`; `f = floor k`,
`c = ceil k`; if `f == c` the result is the sorted list's element at index
`f`, otherwise `values[f]*(c-k) + values[c]*(k-f)`; empty input yields 0. -/
def percentileRef (values : List ℚ) (p : ℚ) : ℚ :=
  if values = [] then 0
  else
    let s := values.insertionSort (fun a b => a ≤ b)
    let k : ℚ := ((s.length : ℚ) - 1) * (p / 100)
    let f : ℤ := ⌊k⌋
    let c : ℤ := ⌈k⌉
    if f = c then s.getD f.toNat 0
    else s.getD f.toNat 0 * ((c : ℚ) - k) + s.getD c.toNat 0 * (k - (f : ℚ))

/-- The kind of store call one worker iteration issues. -/
inductive StoreCall where
  | read
  | write
  deriving DecidableEq

/-- The recorded outcome of one worker-loop iteration: a successful point
read with its measured duration, a successful write with its duration, or a
store failure (the `except` branch records no duration and no kind). -/
inductive Outcome where
  | readSuccess (d : ℚ)
  | writeSuccess (d : ℚ)
  | err
  deriving DecidableEq

/-- The recording step of the worker-loop body: on read success increment
`read_ops` and append the duration to `read_latencies`; on write success
increment `write_ops` and append to `write_latencies`; on a store failure
increment only `errors`. -/
def recordOutcome (stats : WorkerStats) : Outcome → WorkerStats
  | .readSuccess d =>
      { stats with read_ops := stats.read_ops + 1,
                   read_latencies := stats.read_latencies ++ [d] }
  | .writeSuccess d =>
      { stats with write_ops := stats.write_ops + 1,
                   write_latencies := stats.write_latencies ++ [d] }
  | .err => { stats with errors := stats.errors + 1 }

/-- Folding the recording step over a whole list of outcomes, starting from
a fresh `WorkerStats` — the stats a worker accumulates from the given raw
operation outcomes. -/
def statsOfOutcomes (ops : List Outcome) : WorkerStats :=
  ops.foldl recordOutcome WorkerStats.empty

/-- Environment of one candidate worker-loop iteration: `now` is the
`time.perf_counter()` reading at the loop head, `draw` the `rng.random()`
value in `[0,1)`, `ok` whether the store call made at this iteration would
succeed, and `dur` its measured duration when it succeeds. -/
structure IterEnv where
  now : ℚ
  draw : ℚ
  ok : Bool
  dur : ℚ
  deriving DecidableEq

/-- Per-iteration operation choice of the worker loop: workload `read`
always reads, workload `write` always writes, otherwise (the `mixed`
workload) read exactly when the fresh uniform draw is `< read ratio`. -/
def chooseOp (workload : String) (p_read : ℚ) (draw : ℚ) : StoreCall :=
  if workload = "read" then .read
  else if workload = "write" then .write
  else if draw < p_read then .read else .write

/-- The outcome the loop body records for an issued call under environment
`e`: the matching success with duration `e.dur` when the store call
succeeds, the error outcome when it raises. -/
def outcomeOf (op : StoreCall) (e : IterEnv) : Outcome :=
  if e.ok then
    match op with
    | .read => .readSuccess e.dur
    | .write => .writeSuccess e.dur
  else .err

/-- The `while time.perf_counter() < end_time` loop of `worker_loop`: at
each loop head consume the next environment record; if its clock reading is
still before the deadline, choose the operation, issue it, record the
outcome and continue, otherwise stop.  Returns the final stats and the list
of issued store calls in order. -/
def runIters (workload : String) (p_read : ℚ) (end_time : ℚ) :
    List IterEnv → WorkerStats → WorkerStats × List StoreCall
  | [], stats => (stats, [])
  | e :: rest, stats =>
      if e.now < end_time then
        let op := chooseOp workload p_read e.draw
        let r := runIters workload p_read end_time rest (recordOutcome stats (outcomeOf op e))
        (r.1, op :: r.2)
      else (stats, [])

/-- The `worker_loop` function: if the workload is `read` or `mixed` and
the prepared key list is empty, raise the configuration `RuntimeError`
before entering the loop (modelled as `none`); otherwise run the
deadline-bounded loop from fresh stats (`some` of its result). -/
def worker_loop (workload : String) (p_read : ℚ) (read_keys : List String)
    (end_time : ℚ) (envs : List IterEnv) : Option (WorkerStats × List StoreCall) :=
  if (workload = "read" ∨ workload = "mixed") ∧ read_keys = [] then none
  else some (runIters workload p_read end_time envs WorkerStats.empty)

/-- The `merge_stats` function: fold all worker buckets into a fresh
`WorkerStats`, concatenating the latency lists and summing the counters in
list order. -/
def merge_stats (stats_list : List WorkerStats) : WorkerStats :=
  stats_list.foldl
    (fun total s =>
      { read_latencies := total.read_latencies ++ s.read_latencies
        write_latencies := total.write_latencies ++ s.write_latencies
        read_ops := total.read_ops + s.read_ops
        write_ops := total.write_ops + s.write_ops
        errors := total.errors + s.errors })
    WorkerStats.empty

/-- The batching loop of `prepare_dataset`: while rows remain, take
`this_batch = min 100 remaining` fresh keys from the generator, append them
to the key list, issue one batch insert with exactly those values, and
recurse on the rest.  Returns the accumulated keys and the list of batch
insert calls (each batch given by its list of keys). -/
def prepareGo (keyGen : ℕ → String) (remaining next : ℕ) :
    List String × List (List String) :=
  if h : 0 < remaining then
    let this_batch := min 100 remaining
    let values := (List.range this_batch).map (fun i => keyGen (next + i))
    let r := prepareGo keyGen (remaining - this_batch) (next + this_batch)
    (values ++ r.1, values :: r.2)
  else ([], [])
termination_by remaining
decreasing_by simp_wf; omega

/-- The `prepare_dataset` function: for a non-positive requested row count
return no keys and issue no store calls; otherwise run the batching loop.
The random `uuid.uuid4()` generator is abstracted as `keyGen`. -/
def prepare_dataset (initial_rows : ℤ) (keyGen : ℕ → String) :
    List String × List (List String) :=
  if initial_rows ≤ 0 then ([], [])
  else prepareGo keyGen initial_rows.toNat 0

/-- Sizes of the batches `prepare_dataset` issues for a given row count:
`min 100 remaining` repeatedly until nothing remains. -/
def batchSizes (remaining : ℕ) : List ℕ :=
  if h : 0 < remaining then
    min 100 remaining :: batchSizes (remaining - min 100 remaining)
  else []
termination_by remaining
decreasing_by simp_wf; omega

/-- Python's `statistics.mean` on a non-empty list: sum divided by length
(the empty case is never reached by the report). -/
def mean (l : List ℚ) : ℚ := l.sum / l.length

/-- The per-class block `summarize` prints for reads or writes: `none`
stands for the "no operations" line. -/
structure ClassReport where
  count : ℕ
  avg : ℚ
  p50 : ℚ
  p95 : ℚ
  p99 : ℚ
  deriving DecidableEq

/-- The inner `summarize(label, count, latencies)` helper of
`print_summary`: if the latency list is empty or the count is zero report
"no operations", otherwise convert durations to milliseconds and report
count, mean, p50, p95 and p99. -/
def summarize (count : ℕ) (latencies : List ℚ) : Option ClassReport :=
  if latencies = [] ∨ count = 0 then none
  else
    let lat_ms := latencies.map (fun x => x * 1000)
    some { count := count, avg := mean lat_ms, p50 := percentile lat_ms 50,
           p95 := percentile lat_ms 95, p99 := percentile lat_ms 99 }

/-- The data content of the report `print_summary` renders: total operation
count, the throughput line (`none` when `elapsed ≤ 0`, i.e. no rate is
printed), the error count, and the two per-class blocks. -/
structure Summary where
  total_ops : ℕ
  throughput : Option ℚ
  errors : ℕ
  reads : Option ClassReport
  writes : Option ClassReport
  deriving DecidableEq

/-- The `print_summary` function, as data: `total_ops = read_ops +
write_ops`; the rate `total_ops / elapsed` is included exactly when
`elapsed > 0`; reads and writes are summarized independently. -/
def print_summary (elapsed : ℚ) (total : WorkerStats) : Summary :=
  { total_ops := total.read_ops + total.write_ops
    throughput :=
      if 0 < elapsed then some (((total.read_ops + total.write_ops : ℕ) : ℚ) / elapsed)
      else none
    errors := total.errors
    reads := summarize total.read_ops total.read_latencies
    writes := summarize total.write_ops total.write_latencies }

/-- An injective concrete key generator used to exhibit satisfiability of
the distinct-keys hypotheses: the key of index `i` is the string of `i`
letters `a`. -/
def natKey (i : ℕ) : String := String.mk (List.replicate i 'a')

/-- The duration an outcome contributes to the read-latency list, if any. -/
def readDur : Outcome → Option ℚ
  | .readSuccess d => some d
  | _ => none

/-- The duration an outcome contributes to the write-latency list, if any. -/
def writeDur : Outcome → Option ℚ
  | .writeSuccess d => some d
  | _ => none

/-- Whether an outcome is a successful read. -/
def isReadSuccess : Outcome → Bool
  | .readSuccess _ => true
  | _ => false

/-- Whether an outcome is a successful write. -/
def isWriteSuccess : Outcome → Bool
  | .writeSuccess _ => true
  | _ => false

/-- Whether an outcome is a store failure. -/
def isErr : Outcome → Bool
  | .err => true
  | _ => false

/-! ### Helper lemmas about the percentile computation -/

theorem ceil_as_floor (a : ℚ) : ⌈a⌉ = -⌊-a⌋ := by
  simp [Int.floor_neg]

theorem natKey_injective : Function.Injective natKey := by
  intro a b h
  have hlen := congrArg String.length h
  simpa [natKey] using hlen

theorem pyInt_of_floor_eq_ceil {k : ℚ} (h : ⌊k⌋ = ⌈k⌉) : pyInt k = ⌊k⌋ := by
  unfold pyInt
  split
  · rfl
  · exact h.symm

theorem percentile_eq_ref (values : List ℚ) (p : ℚ) :
    percentile values p = percentileRef values p := by
  rcases eq_or_ne values [] with rfl | hne
  · simp [percentile, percentileRef]
  · simp only [percentile, percentileRef, if_neg hne]
    rcases eq_or_ne
        ⌊(((values.insertionSort (fun a b => a ≤ b)).length : ℚ) - 1) * (p / 100)⌋
        ⌈(((values.insertionSort (fun a b => a ≤ b)).length : ℚ) - 1) * (p / 100)⌉ with
      hfc | hfc
  -- the two definitions differ only in the index used when floor and ceil agree
    · simp only [if_pos hfc, pyInt_of_floor_eq_ceil hfc]
    · simp only [if_neg hfc]

theorem insertionSort_eq_of_perm {l l' : List ℚ} (h : l.Perm l') :
    l.insertionSort (fun a b => a ≤ b) = l'.insertionSort (fun a b => a ≤ b) :=
  List.eq_of_perm_of_sorted
    (((List.perm_insertionSort _ l).trans h).trans (List.perm_insertionSort _ l').symm)
    (List.sorted_insertionSort _ l) (List.sorted_insertionSort _ l')

theorem percentile_perm {l l' : List ℚ} (h : l.Perm l') (p : ℚ) :
    percentile l p = percentile l' p := by
  rcases eq_or_ne l [] with rfl | hne
  · rw [List.Perm.eq_nil h.symm]
  · have hne' : l' ≠ [] := fun e => hne (List.Perm.eq_nil (e ▸ h))
    simp only [percentile, if_neg hne, if_neg hne', insertionSort_eq_of_perm h]

theorem percentile_zero (v : List ℚ) (hne : v ≠ []) (hs : v.Sorted (· ≤ ·)) :
    percentile v 0 = v.getD 0 0 := by
  rw [percentile_eq_ref]
  simp [percentileRef, if_neg hne, List.Sorted.insertionSort_eq hs]

theorem percentile_hundred (v : List ℚ) (hne : v ≠ []) (hs : v.Sorted (· ≤ ·)) :
    percentile v 100 = v.getD (v.length - 1) 0 := by
  rw [percentile_eq_ref]
  have h1 : ((v.length : ℚ) - 1) * ((100 : ℚ) / 100) = (((v.length : ℤ) - 1 : ℤ) : ℚ) := by
    push_cast
    ring
  have h2 : ((v.length : ℤ) - 1).toNat = v.length - 1 := by omega
  simp [percentileRef, if_neg hne, List.Sorted.insertionSort_eq hs, h1, h2]

theorem getD_mem_of_lt {v : List ℚ} {n : ℕ} (h : n < v.length) : v.getD n 0 ∈ v := by
  rw [List.getD_eq_getElem?_getD, List.getElem?_eq_getElem h]
  exact List.getElem_mem h

theorem getD_zero_le_of_sorted {v : List ℚ} (hs : v.Sorted (· ≤ ·)) :
    ∀ x ∈ v, v.getD 0 0 ≤ x := by
  cases v with
  | nil => intro x hx; cases hx
  | cons a t =>
    intro x hx
    rcases List.mem_cons.mp hx with rfl | hx
    · simp
    · simpa using List.rel_of_sorted_cons hs x hx

theorem le_getD_last_of_sorted {v : List ℚ} (hs : v.Sorted (· ≤ ·)) :
    ∀ x ∈ v, x ≤ v.getD (v.length - 1) 0 := by
  induction v with
  | nil => intro x hx; cases hx
  | cons a t ih =>
    intro x hx
    cases t with
    | nil =>
      rcases List.mem_singleton.mp hx with rfl
      simp
    | cons b u =>
      have hs' := (List.sorted_cons.mp hs).2
      have htail : ∀ y ∈ b :: u, y ≤ (b :: u).getD ((b :: u).length - 1) 0 := ih hs'
      rcases List.mem_cons.mp hx with rfl | hx
      · have h1 : x ≤ b := (List.sorted_cons.mp hs).1 b (by simp)
        have h2 := htail b (by simp)
        simpa using le_trans h1 h2
      · simpa using htail x hx

/-! ### C1 and C9: percentile correctness -/

/-- C1: for every non-empty value list and `p ∈ [0,100]` the percentile
function computes exactly the spec's sort-and-interpolate formula
(`percentileRef`); the empty list yields 0; and the three concrete spec
vectors hold: `percentile [10,20,30,40] 50 = 25`, `percentile [] 50 = 0`,
`percentile [5] 99 = 5`. -/
theorem percentile_matches_spec :
    (∀ (values : List ℚ) (p : ℚ), values ≠ [] → 0 ≤ p → p ≤ 100 →
        percentile values p = percentileRef values p)
    ∧ (∀ p : ℚ, percentile [] p = 0)
    ∧ percentile [10, 20, 30, 40] 50 = 25
    ∧ percentile [] 50 = 0
    ∧ percentile [5] 99 = 5 := by
  refine ⟨fun values p _ _ _ => percentile_eq_ref values p, fun p => by simp [percentile],
    ?_, ?_, ?_⟩
  · norm_num [percentile, List.insertionSort, List.orderedInsert, ceil_as_floor, Int.toNat,
      List.getD, List.cons_ne_nil, pyInt]
  · simp [percentile]
  · norm_num [percentile, List.insertionSort, List.orderedInsert, ceil_as_floor, Int.toNat,
      List.getD, List.cons_ne_nil, pyInt]

/-- Witness for C1: the general clause applied at a concrete admissible
input, with every hypothesis discharged there. -/
theorem percentile_matches_spec_witness :
    ([10, 20, 30, 40] : List ℚ) ≠ [] ∧ (0 : ℚ) ≤ 50 ∧ (50 : ℚ) ≤ 100 ∧
      percentile [10, 20, 30, 40] 50 = percentileRef [10, 20, 30, 40] 50 :=
  ⟨by decide, by decide, by decide,
    percentile_matches_spec.1 [10, 20, 30, 40] 50 (by decide) (by decide) (by decide)⟩

/-- C9: for every non-empty sorted list `v`, `percentile v 0` is the
minimum element of `v` (a member that bounds every member from below) and
`percentile v 100` is the maximum element of `v`. -/
theorem percentile_endpoints (v : List ℚ) (hne : v ≠ []) (hs : v.Sorted (· ≤ ·)) :
    (percentile v 0 ∈ v ∧ ∀ x ∈ v, percentile v 0 ≤ x)
    ∧ (percentile v 100 ∈ v ∧ ∀ x ∈ v, x ≤ percentile v 100) := by
  have h0 := percentile_zero v hne hs
  have h100 := percentile_hundred v hne hs
  have hlen : 0 < v.length := List.length_pos.mpr hne
  refine ⟨⟨?_, ?_⟩, ⟨?_, ?_⟩⟩
  · rw [h0]
    exact getD_mem_of_lt hlen
  · rw [h0]
    exact getD_zero_le_of_sorted hs
  · rw [h100]
    exact getD_mem_of_lt (by omega)
  · rw [h100]
    exact le_getD_last_of_sorted hs

/-- Witness for C9: endpoints of a concrete non-empty sorted list. -/
theorem percentile_endpoints_witness :
    (([1, 2, 3] : List ℚ) ≠ [] ∧ ([1, 2, 3] : List ℚ).Sorted (· ≤ ·))
      ∧ percentile [1, 2, 3] 0 ∈ ([1, 2, 3] : List ℚ) :=
  ⟨⟨by decide, by decide⟩,
    (percentile_endpoints [1, 2, 3] (by decide) (by decide)).1.1⟩

/-! ### Helper lemmas about the worker loop -/

theorem worker_loop_some {w : String} {pr : ℚ} {keys : List String} {t : ℚ}
    {envs : List IterEnv} {st : WorkerStats} {calls : List StoreCall}
    (h : worker_loop w pr keys t envs = some (st, calls)) :
    st = (runIters w pr t envs WorkerStats.empty).1
      ∧ calls = (runIters w pr t envs WorkerStats.empty).2 := by
  unfold worker_loop at h
  split at h
  · cases h
  · injection h with h'
    exact ⟨(congrArg Prod.fst h').symm, (congrArg Prod.snd h').symm⟩

theorem runIters_calls (w : String) (pr : ℚ) (t : ℚ) (envs : List IterEnv) (s : WorkerStats) :
    (runIters w pr t envs s).2
      = (envs.takeWhile (fun e => decide (e.now < t))).map (fun e => chooseOp w pr e.draw) := by
  induction envs generalizing s with
  | nil => simp [runIters]
  | cons e rest ih =>
    by_cases h : e.now < t
    · simp [runIters, h, List.takeWhile_cons, ih]
    · simp [runIters, h, List.takeWhile_cons]

theorem runIters_stats (w : String) (pr : ℚ) (t : ℚ) (envs : List IterEnv) (s : WorkerStats) :
    (runIters w pr t envs s).1
      = ((envs.takeWhile (fun e => decide (e.now < t))).map
          (fun e => outcomeOf (chooseOp w pr e.draw) e)).foldl recordOutcome s := by
  induction envs generalizing s with
  | nil => simp [runIters]
  | cons e rest ih =>
    by_cases h : e.now < t
    · simp [runIters, h, List.takeWhile_cons, ih]
    · simp [runIters, h, List.takeWhile_cons]

theorem foldl_recordOutcome (l : List Outcome) (s : WorkerStats) :
    l.foldl recordOutcome s =
      { read_latencies := s.read_latencies ++ l.filterMap readDur
        write_latencies := s.write_latencies ++ l.filterMap writeDur
        read_ops := s.read_ops + l.countP isReadSuccess
        write_ops := s.write_ops + l.countP isWriteSuccess
        errors := s.errors + l.countP isErr } := by
  induction l generalizing s with
  | nil => simp
  | cons o rest ih =>
    cases o <;>
      simp [recordOutcome, readDur, writeDur, isReadSuccess, isWriteSuccess, isErr,
        List.countP_cons, ih, List.append_assoc, Nat.add_assoc, Nat.add_comm,
        Nat.add_left_comm]

theorem statsOfOutcomes_eq (l : List Outcome) :
    statsOfOutcomes l =
      { read_latencies := l.filterMap readDur
        write_latencies := l.filterMap writeDur
        read_ops := l.countP isReadSuccess
        write_ops := l.countP isWriteSuccess
        errors := l.countP isErr } := by
  simp [statsOfOutcomes, foldl_recordOutcome, WorkerStats.empty]

theorem length_filterMap_readDur (l : List Outcome) :
    (l.filterMap readDur).length = l.countP isReadSuccess := by
  induction l with
  | nil => rfl
  | cons o rest ih => cases o <;> simp [readDur, isReadSuccess, List.countP_cons, ih]

theorem length_filterMap_writeDur (l : List Outcome) :
    (l.filterMap writeDur).length = l.countP isWriteSuccess := by
  induction l with
  | nil => rfl
  | cons o rest ih => cases o <;> simp [writeDur, isWriteSuccess, List.countP_cons, ih]

theorem runIters_all_fail (w : String) (pr : ℚ) (t : ℚ) (envs : List IterEnv) (s : WorkerStats)
    (hfail : ∀ e ∈ envs, e.ok = false) :
    runIters w pr t envs s
      = ({ s with errors := s.errors + (envs.takeWhile (fun e => decide (e.now < t))).length },
          (envs.takeWhile (fun e => decide (e.now < t))).map (fun e => chooseOp w pr e.draw)) := by
  induction envs generalizing s with
  | nil => simp [runIters]
  | cons e rest ih =>
    have hout : outcomeOf (chooseOp w pr e.draw) e = .err := by
      simp [outcomeOf, hfail e (by simp)]
    by_cases h : e.now < t
    · simp [runIters, h, List.takeWhile_cons, hout, recordOutcome,
        ih _ (fun x hx => hfail x (by simp [hx])), Nat.add_assoc, Nat.add_comm 1]
    · simp [runIters, h, List.takeWhile_cons]

/-! ### Helper lemmas about merging -/

theorem merge_stats_foldl (sl : List WorkerStats) (s : WorkerStats) :
    sl.foldl
      (fun total t =>
        { read_latencies := total.read_latencies ++ t.read_latencies
          write_latencies := total.write_latencies ++ t.write_latencies
          read_ops := total.read_ops + t.read_ops
          write_ops := total.write_ops + t.write_ops
          errors := total.errors + t.errors }) s
      = { read_latencies := s.read_latencies ++ (sl.map WorkerStats.read_latencies).flatten
          write_latencies := s.write_latencies ++ (sl.map WorkerStats.write_latencies).flatten
          read_ops := s.read_ops + (sl.map WorkerStats.read_ops).sum
          write_ops := s.write_ops + (sl.map WorkerStats.write_ops).sum
          errors := s.errors + (sl.map WorkerStats.errors).sum } := by
  induction sl generalizing s with
  | nil => simp
  | cons a rest ih => simp [ih, List.append_assoc, Nat.add_assoc]

theorem merge_stats_eq (sl : List WorkerStats) :
    merge_stats sl
      = { read_latencies := (sl.map WorkerStats.read_latencies).flatten
          write_latencies := (sl.map WorkerStats.write_latencies).flatten
          read_ops := (sl.map WorkerStats.read_ops).sum
          write_ops := (sl.map WorkerStats.write_ops).sum
          errors := (sl.map WorkerStats.errors).sum } := by
  simp [merge_stats, merge_stats_foldl, WorkerStats.empty]

theorem merge_statsOfOutcomes (A : List (List Outcome)) :
    merge_stats (A.map statsOfOutcomes) = statsOfOutcomes A.flatten := by
  simp [merge_stats_eq, statsOfOutcomes_eq, List.map_map, Function.comp_def,
    List.filterMap_flatten, List.countP_flatten]

/-! ### Evaluation lemmas for the per-iteration operation choice -/

theorem chooseOp_read (pr d : ℚ) : chooseOp "read" pr d = StoreCall.read := rfl

theorem chooseOp_write (pr d : ℚ) : chooseOp "write" pr d = StoreCall.write := rfl

theorem chooseOp_mixed (pr d : ℚ) :
    chooseOp "mixed" pr d = if d < pr then StoreCall.read else StoreCall.write := rfl

/-! ### C2: merging is split-invariant -/

/-- C2: for any two partitions of the same multiset of raw operation
outcomes into worker buckets, merging the per-bucket stats yields identical
read, write and error counts, and identical percentiles (at every `p`) of
the merged read- and write-duration lists. -/
theorem merge_stats_split_invariant (A B : List (List Outcome))
    (h : A.flatten.Perm B.flatten) :
    (merge_stats (A.map statsOfOutcomes)).read_ops
        = (merge_stats (B.map statsOfOutcomes)).read_ops
    ∧ (merge_stats (A.map statsOfOutcomes)).write_ops
        = (merge_stats (B.map statsOfOutcomes)).write_ops
    ∧ (merge_stats (A.map statsOfOutcomes)).errors
        = (merge_stats (B.map statsOfOutcomes)).errors
    ∧ (∀ p : ℚ, percentile (merge_stats (A.map statsOfOutcomes)).read_latencies p
        = percentile (merge_stats (B.map statsOfOutcomes)).read_latencies p)
    ∧ (∀ p : ℚ, percentile (merge_stats (A.map statsOfOutcomes)).write_latencies p
        = percentile (merge_stats (B.map statsOfOutcomes)).write_latencies p) := by
  rw [merge_statsOfOutcomes, merge_statsOfOutcomes, statsOfOutcomes_eq, statsOfOutcomes_eq]
  exact ⟨h.countP_eq _, h.countP_eq _, h.countP_eq _,
    fun p => percentile_perm (h.filterMap readDur) p,
    fun p => percentile_perm (h.filterMap writeDur) p⟩

/-- Witness for C2: two workers versus one combined worker over the same
two raw outcomes. -/
theorem merge_stats_split_invariant_witness :
    ([[Outcome.readSuccess 1, Outcome.err]] : List (List Outcome)).flatten.Perm
        ([[Outcome.err], [Outcome.readSuccess 1]] : List (List Outcome)).flatten
    ∧ (merge_stats (([[Outcome.readSuccess 1, Outcome.err]] :
          List (List Outcome)).map statsOfOutcomes)).read_ops
        = (merge_stats (([[Outcome.err], [Outcome.readSuccess 1]] :
          List (List Outcome)).map statsOfOutcomes)).read_ops :=
  ⟨by decide, (merge_stats_split_invariant _ _ (by decide)).1⟩

/-! ### C3: mode exclusivity of the workload policy -/

/-- C3: workload `read` never issues a write call and workload `write`
never issues a read call; in `mixed` mode the choice is a read exactly when
the fresh uniform draw is strictly below the read ratio, so ratio 1 with
draws in `[0,1)` issues only reads and ratio 0 with non-negative draws
issues only writes. -/
theorem workload_mode_exclusivity (pr : ℚ) (keys : List String) (t : ℚ)
    (envs : List IterEnv) :
    (∀ st calls, worker_loop "read" pr keys t envs = some (st, calls)
        → StoreCall.write ∉ calls)
    ∧ (∀ st calls, worker_loop "write" pr keys t envs = some (st, calls)
        → StoreCall.read ∉ calls)
    ∧ (∀ d : ℚ, chooseOp "mixed" pr d = StoreCall.read ↔ d < pr)
    ∧ ((∀ e ∈ envs, e.draw < 1) → ∀ st calls,
        worker_loop "mixed" 1 keys t envs = some (st, calls) → StoreCall.write ∉ calls)
    ∧ ((∀ e ∈ envs, 0 ≤ e.draw) → ∀ st calls,
        worker_loop "mixed" 0 keys t envs = some (st, calls) → StoreCall.read ∉ calls) := by
  refine ⟨?_, ?_, ?_, ?_, ?_⟩
  · intro st calls h hmem
    rw [(worker_loop_some h).2, runIters_calls] at hmem
    rcases List.mem_map.mp hmem with ⟨e, -, he⟩
    rw [chooseOp_read] at he
    cases he
  · intro st calls h hmem
    rw [(worker_loop_some h).2, runIters_calls] at hmem
    rcases List.mem_map.mp hmem with ⟨e, -, he⟩
    rw [chooseOp_write] at he
    cases he
  · intro d
    rw [chooseOp_mixed]
    by_cases hd : d < pr <;> simp [hd]
  · intro hdraw st calls h hmem
    rw [(worker_loop_some h).2, runIters_calls] at hmem
    rcases List.mem_map.mp hmem with ⟨e, hemem, he⟩
    have h1 : e.draw < 1 := hdraw e ((List.takeWhile_sublist _).subset hemem)
    rw [chooseOp_mixed, if_pos h1] at he
    cases he
  · intro hdraw st calls h hmem
    rw [(worker_loop_some h).2, runIters_calls] at hmem
    rcases List.mem_map.mp hmem with ⟨e, hemem, he⟩
    have h0 : ¬e.draw < 0 := not_lt.mpr (hdraw e ((List.takeWhile_sublist _).subset hemem))
    rw [chooseOp_mixed, if_neg h0] at he
    cases he

/-- Witness for C3: a concrete read-mode run issues no write call. -/
theorem workload_mode_exclusivity_witness :
    worker_loop "read" 0 ["k"] 1 [⟨0, 0, true, 5⟩]
        = some ({ read_latencies := [5], write_latencies := [], read_ops := 1,
                  write_ops := 0, errors := 0 }, [StoreCall.read])
    ∧ StoreCall.write ∉ [StoreCall.read] :=
  ⟨by decide,
    (workload_mode_exclusivity 0 ["k"] 1 [⟨0, 0, true, 5⟩]).1
      { read_latencies := [5], write_latencies := [], read_ops := 1,
        write_ops := 0, errors := 0 } [StoreCall.read] (by decide)⟩

/-! ### C4, C5, C7, C10: worker loop behaviour -/

/-- C4: with workload `read` or `mixed` and an empty prepared key list, the
worker raises the configuration error at loop entry (result `none`),
regardless of the iteration trace — so no store call is issued and no
normal `some` result (the shape carrying per-operation error counts) is
produced. -/
theorem worker_fail_fast_empty_keys (w : String) (pr : ℚ) (t : ℚ)
    (envs : List IterEnv) (hw : w = "read" ∨ w = "mixed") :
    worker_loop w pr [] t envs = none := by
  unfold worker_loop
  rw [if_pos ⟨hw, rfl⟩]

/-- Witness for C4: read mode with no keys fails fast on a concrete trace. -/
theorem worker_fail_fast_empty_keys_witness :
    (("read" : String) = "read" ∨ ("read" : String) = "mixed")
    ∧ worker_loop "read" 0 [] 1 [⟨0, 0, true, 5⟩] = none :=
  ⟨Or.inl rfl, worker_fail_fast_empty_keys "read" 0 1 [⟨0, 0, true, 5⟩] (Or.inl rfl)⟩

/-- C5: if every store call fails and the key precondition holds, the
worker still completes normally (`some`, no escaping exception), performs
every iteration its deadline allows, counts each failing iteration only in
`errors`, appends no duration, and ends with zero read and write counts. -/
theorem worker_error_isolation (w : String) (pr : ℚ) (keys : List String) (t : ℚ)
    (envs : List IterEnv)
    (hkeys : ¬((w = "read" ∨ w = "mixed") ∧ keys = []))
    (hfail : ∀ e ∈ envs, e.ok = false) :
    worker_loop w pr keys t envs
      = some
          ({ read_latencies := [], write_latencies := [], read_ops := 0, write_ops := 0,
             errors := (envs.takeWhile (fun e => decide (e.now < t))).length },
           (envs.takeWhile (fun e => decide (e.now < t))).map (fun e => chooseOp w pr e.draw)) := by
  unfold worker_loop
  rw [if_neg hkeys, runIters_all_fail w pr t envs WorkerStats.empty hfail]
  simp [WorkerStats.empty]

/-- Witness for C5: one always-failing iteration in write mode yields one
counted error and nothing else. -/
theorem worker_error_isolation_witness :
    worker_loop "write" 0 [] 1 [⟨0, 0, false, 0⟩]
      = some ({ read_latencies := [], write_latencies := [], read_ops := 0, write_ops := 0,
                errors := 1 }, [StoreCall.write]) := by
  rw [worker_error_isolation "write" 0 [] 1 [⟨0, 0, false, 0⟩] (by decide) (by decide)]
  decide

/-- C7: a worker's issued operations correspond exactly to the loop-head
clock checks that passed: their number is the length of the maximal prefix
of clock readings strictly before the deadline (so no operation starts at
or past the deadline, and termination is decided between iterations only);
if every reading beats the deadline the worker performs every iteration
(it never stops early, whatever the per-iteration outcomes); and if the
first reading is already at or past the deadline — the duration 0 case,
where the deadline equals the start time — no operation is performed at
all. -/
theorem worker_deadline_termination (w : String) (pr : ℚ) (keys : List String) (t : ℚ)
    (envs : List IterEnv) (st : WorkerStats) (calls : List StoreCall)
    (h : worker_loop w pr keys t envs = some (st, calls)) :
    calls.length = (envs.takeWhile (fun e => decide (e.now < t))).length
    ∧ ((∀ e ∈ envs, e.now < t) → calls.length = envs.length)
    ∧ (∀ e0 rest, envs = e0 :: rest → t ≤ e0.now → calls = []) := by
  have hc := (worker_loop_some h).2
  refine ⟨?_, ?_, ?_⟩
  · rw [hc, runIters_calls, List.length_map]
  · intro hall
    rw [hc, runIters_calls, List.length_map,
      List.takeWhile_eq_self_iff.mpr (fun e he => by simpa using hall e he)]
  · intro e0 rest he ht
    subst he
    rw [hc, runIters_calls]
    simp [List.takeWhile_cons, not_lt.mpr ht]

/-- Witness for C7: a concrete run whose single clock reading beats the
deadline performs exactly that one operation. -/
theorem worker_deadline_termination_witness :
    worker_loop "write" 0 [] 1 [⟨0, 0, true, 2⟩]
        = some ({ read_latencies := [], write_latencies := [2], read_ops := 0,
                  write_ops := 1, errors := 0 }, [StoreCall.write])
    ∧ [StoreCall.write].length
        = (([⟨0, 0, true, 2⟩] : List IterEnv).takeWhile (fun e => decide (e.now < 1))).length :=
  ⟨by decide,
    (worker_deadline_termination "write" 0 [] 1 [⟨0, 0, true, 2⟩]
      { read_latencies := [], write_latencies := [2], read_ops := 0,
        write_ops := 1, errors := 0 } [StoreCall.write] (by decide)).1⟩

/-- C10: any stats a completed worker loop returns satisfy
`read_ops = read_latencies.length` and `write_ops = write_latencies.length`
(exactly one outcome is recorded per iteration, and a duration is appended
iff the matching counter is incremented), and `merge_stats` preserves this
invariant for any list of buckets satisfying it. -/
theorem worker_stats_invariant (w : String) (pr : ℚ) (keys : List String) (t : ℚ)
    (envs : List IterEnv) (st : WorkerStats) (calls : List StoreCall)
    (h : worker_loop w pr keys t envs = some (st, calls)) :
    (st.read_ops = st.read_latencies.length ∧ st.write_ops = st.write_latencies.length)
    ∧ (∀ sl : List WorkerStats,
        (∀ s ∈ sl, s.read_ops = s.read_latencies.length
          ∧ s.write_ops = s.write_latencies.length) →
        (merge_stats sl).read_ops = (merge_stats sl).read_latencies.length
        ∧ (merge_stats sl).write_ops = (merge_stats sl).write_latencies.length) := by
  constructor
  · have hs := (worker_loop_some h).1
    rw [hs, runIters_stats, foldl_recordOutcome]
    constructor
    · simp only [WorkerStats.empty, List.nil_append, Nat.zero_add]
      exact (length_filterMap_readDur _).symm
    · simp only [WorkerStats.empty, List.nil_append, Nat.zero_add]
      exact (length_filterMap_writeDur _).symm
  · intro sl hsl
    rw [merge_stats_eq]
    constructor
    · show (sl.map WorkerStats.read_ops).sum = ((sl.map WorkerStats.read_latencies).flatten).length
      rw [List.length_flatten, List.map_map]
      exact congrArg List.sum (List.map_congr_left fun s hs => (hsl s hs).1)
    · show (sl.map WorkerStats.write_ops).sum = ((sl.map WorkerStats.write_latencies).flatten).length
      rw [List.length_flatten, List.map_map]
      exact congrArg List.sum (List.map_congr_left fun s hs => (hsl s hs).2)

/-- Witness for C10: the invariant holds on the stats of a concrete
completed run. -/
theorem worker_stats_invariant_witness :
    ({ read_latencies := [], write_latencies := [7], read_ops := 0, write_ops := 1,
       errors := 0 } : WorkerStats).read_ops
      = ({ read_latencies := [], write_latencies := [7], read_ops := 0, write_ops := 1,
           errors := 0 } : WorkerStats).read_latencies.length :=
  ((worker_stats_invariant "write" 0 [] 1 [⟨0, 0, true, 7⟩]
      { read_latencies := [], write_latencies := [7], read_ops := 0, write_ops := 1,
        errors := 0 } [StoreCall.write] (by decide)).1).1

/-! ### Helper lemmas about dataset preparation -/

theorem prepareGo_pos (g : ℕ → String) (r next : ℕ) (h : 0 < r) :
    prepareGo g r next
      = ((List.range (min 100 r)).map (fun i => g (next + i))
            ++ (prepareGo g (r - min 100 r) (next + min 100 r)).1,
         (List.range (min 100 r)).map (fun i => g (next + i))
            :: (prepareGo g (r - min 100 r) (next + min 100 r)).2) := by
  rw [prepareGo, dif_pos h]

theorem prepareGo_zero (g : ℕ → String) (next : ℕ) : prepareGo g 0 next = ([], []) := by
  rw [prepareGo, dif_neg (by omega)]

theorem batchSizes_pos (r : ℕ) (h : 0 < r) :
    batchSizes r = min 100 r :: batchSizes (r - min 100 r) := by
  rw [batchSizes, dif_pos h]

theorem batchSizes_zero : batchSizes 0 = [] := by
  rw [batchSizes, dif_neg (by omega)]

theorem prepareGo_keys (g : ℕ → String) :
    ∀ r next, (prepareGo g r next).1 = (List.range r).map (fun i => g (next + i)) := by
  intro r
  induction r using Nat.strong_induction_on with
  | _ r ih =>
    intro next
    by_cases h : 0 < r
    · have hlt : r - min 100 r < r := by omega
      rw [prepareGo_pos g r next h]
      have hrec := ih _ hlt (next + min 100 r)
      have hsplit : r = min 100 r + (r - min 100 r) := by omega
      conv_rhs => rw [hsplit]
      rw [List.range_add, List.map_append, List.map_map]
      simp [hrec, Function.comp_def, Nat.add_assoc]
    · have h0 : r = 0 := by omega
      subst h0
      simp [prepareGo_zero]
  

theorem prepareGo_sizes (g : ℕ → String) :
    ∀ r next, (prepareGo g r next).2.map List.length = batchSizes r := by
  intro r
  induction r using Nat.strong_induction_on with
  | _ r ih =>
    intro next
    by_cases h : 0 < r
    · have hlt : r - min 100 r < r := by omega
      rw [prepareGo_pos g r next h, batchSizes_pos r h]
      simp [ih _ hlt (next + min 100 r)]
    · have h0 : r = 0 := by omega
      subst h0
      simp [prepareGo_zero, batchSizes_zero]

theorem batchSizes_length : ∀ r : ℕ, (batchSizes r).length = (r + 99) / 100 := by
  intro r
  induction r using Nat.strong_induction_on with
  | _ r ih =>
    by_cases h : 0 < r
    · have hlt : r - min 100 r < r := by omega
      rw [batchSizes_pos r h]
      simp only [List.length_cons, ih _ hlt]
      omega
    · have h0 : r = 0 := by omega
      subst h0
      simp [batchSizes_zero]

theorem batchSizes_250 : batchSizes 250 = [100, 100, 50] := by
  rw [batchSizes_pos 250 (by norm_num)]
  norm_num [Nat.min_def]
  rw [batchSizes_pos 150 (by norm_num)]
  norm_num [Nat.min_def]
  rw [batchSizes_pos 50 (by norm_num)]
  norm_num [Nat.min_def, batchSizes_zero]

/-! ### C6: dataset preparation counts -/

/-- C6: requesting 250 rows yields exactly 250 keys via exactly three
batch-insert calls of sizes 100, 100 and 50; the keys are distinct whenever
the key generator is injective (the model of uuid4 uniqueness); in general
a positive requested count `n` yields `n` keys in `ceil(n/100)` batches,
and a non-positive count yields no keys and no store calls. -/
theorem prepare_dataset_counts (keyGen : ℕ → String) (n : ℤ) :
    ((prepare_dataset 250 keyGen).1.length = 250
      ∧ (prepare_dataset 250 keyGen).2.map List.length = [100, 100, 50])
    ∧ (Function.Injective keyGen → (prepare_dataset 250 keyGen).1.Nodup)
    ∧ (0 < n → (prepare_dataset n keyGen).1.length = n.toNat
        ∧ (prepare_dataset n keyGen).2.length = (n.toNat + 99) / 100)
    ∧ (n ≤ 0 → prepare_dataset n keyGen = ([], [])) := by
  have ht : Int.toNat 250 = 250 := by decide
  have h250 : prepare_dataset 250 keyGen = prepareGo keyGen 250 0 := by
    rw [prepare_dataset, if_neg (by norm_num), ht]
  refine ⟨⟨?_, ?_⟩, ?_, ?_, ?_⟩
  · rw [h250, prepareGo_keys]
    simp
  · rw [h250, prepareGo_sizes, batchSizes_250]
  · intro hinj
    rw [h250, prepareGo_keys]
    have hinj' : Function.Injective (fun i => keyGen (0 + i)) := by
      intro a b hab
      have := hinj hab
      omega
    exact (List.nodup_range 250).map hinj'
  · intro hn
    have hd : prepare_dataset n keyGen = prepareGo keyGen n.toNat 0 := by
      rw [prepare_dataset, if_neg (by omega)]
    constructor
    · rw [hd, prepareGo_keys]
      simp
    · have hlen := congrArg List.length (prepareGo_sizes keyGen n.toNat 0)
      rw [List.length_map] at hlen
      rw [hd, hlen, batchSizes_length]
  · intro hn
    rw [prepare_dataset, if_pos hn]

/-- Witness for C6: the injectivity and positivity hypotheses are
satisfiable, with the concrete injective generator `natKey`. -/
theorem prepare_dataset_counts_witness :
    (Function.Injective natKey ∧ (prepare_dataset 250 natKey).1.Nodup)
    ∧ ((0 : ℤ) < 5 ∧ (prepare_dataset 5 natKey).1.length = (5 : ℤ).toNat) :=
  ⟨⟨natKey_injective, (prepare_dataset_counts natKey 1).2.1 natKey_injective⟩,
   ⟨by decide, ((prepare_dataset_counts natKey 5).2.2.1 (by decide)).1⟩⟩

/-! ### C8: summary rendering rules -/

/-- C8: the report's total operation count is the sum of read and write
counts; a throughput value `total/elapsed` is present exactly when
`elapsed > 0` and absent when `elapsed ≤ 0`; and for each class
independently (under the recorded-stats invariant that counts equal the
lengths of the duration lists), a zero count renders "no operations" while
a non-zero count renders the count together with mean, p50, p95 and p99 of
that class's durations converted to milliseconds. -/
theorem print_summary_rules (elapsed : ℚ) (total : WorkerStats)
    (hr : total.read_ops = total.read_latencies.length)
    (hw : total.write_ops = total.write_latencies.length) :
    (print_summary elapsed total).total_ops = total.read_ops + total.write_ops
    ∧ (0 < elapsed → (print_summary elapsed total).throughput
        = some (((total.read_ops + total.write_ops : ℕ) : ℚ) / elapsed))
    ∧ (elapsed ≤ 0 → (print_summary elapsed total).throughput = none)
    ∧ (total.read_ops = 0 → (print_summary elapsed total).reads = none)
    ∧ (total.read_ops ≠ 0 → (print_summary elapsed total).reads
        = some { count := total.read_ops,
                 avg := mean (total.read_latencies.map (fun x => x * 1000)),
                 p50 := percentile (total.read_latencies.map (fun x => x * 1000)) 50,
                 p95 := percentile (total.read_latencies.map (fun x => x * 1000)) 95,
                 p99 := percentile (total.read_latencies.map (fun x => x * 1000)) 99 })
    ∧ (total.write_ops = 0 → (print_summary elapsed total).writes = none)
    ∧ (total.write_ops ≠ 0 → (print_summary elapsed total).writes
        = some { count := total.write_ops,
                 avg := mean (total.write_latencies.map (fun x => x * 1000)),
                 p50 := percentile (total.write_latencies.map (fun x => x * 1000)) 50,
                 p95 := percentile (total.write_latencies.map (fun x => x * 1000)) 95,
                 p99 := percentile (total.write_latencies.map (fun x => x * 1000)) 99 }) := by
  refine ⟨rfl, ?_, ?_, ?_, ?_, ?_, ?_⟩
  · intro hpos
    simp [print_summary, hpos]
  · intro hle
    simp [print_summary, not_lt.mpr hle]
  · intro h0
    simp [print_summary, summarize, h0]
  · intro h0
    have hlat : total.read_latencies ≠ [] := by
      intro e
      rw [e] at hr
      exact h0 hr
    simp [print_summary, summarize, hlat, h0]
  · intro h0
    simp [print_summary, summarize, h0]
  · intro h0
    have hlat : total.write_latencies ≠ [] := by
      intro e
      rw [e] at hw
      exact h0 hw
    simp [print_summary, summarize, hlat, h0]

/-- Witness for C8: a concrete one-read run with positive elapsed time has
a throughput line. -/
theorem print_summary_rules_witness :
    (0 : ℚ) < 1
    ∧ (print_summary 1
          { read_latencies := [2], write_latencies := [], read_ops := 1,
            write_ops := 0, errors := 0 }).throughput
        = some (((1 + 0 : ℕ) : ℚ) / 1) :=
  ⟨by decide,
    (print_summary_rules 1
        { read_latencies := [2], write_latencies := [], read_ops := 1,
          write_ops := 0, errors := 0 } (by decide) (by decide)).2.1 (by decide)⟩
